import Mathlib

/-!
Shallow embedding of the in-memory todo CRUD service (src/todo/src/main.rs).

The Rust program keeps its state in a `Mutex<HashMap<usize, Todo>>`; each
request handler locks the map, performs one map operation and returns a JSON
value.  Here the map is modelled as an association list with at most one
binding per key (the hash map's contents, iteration order being a modelling
choice since `HashMap` iteration order is unspecified), and every handler is a
state-passing function `... → TodoRepository → Response × TodoRepository`.
-/

set_option autoImplicit false

namespace TodoApp

/-- `type ID = usize;` — identifiers, modelled as `Nat`. -/
abbrev ID := Nat

/-- `struct Priority(usize);` — a plain wrapper around an unsigned integer.
The serde `Deserialize` derive builds a `Priority` from any integer, without
range validation; only `from_form_value` validates. -/
structure Priority where
  val : Nat
deriving DecidableEq

/-- `struct Todo { id: ID, priority: Priority, title: String }`. -/
structure Todo where
  id : ID
  priority : Priority
  title : String
deriving DecidableEq

/-- Model of Rust `str::parse::<usize>()` on a 64-bit target: an optional
leading `+`, then one or more ASCII decimal digits, value below `2^64`;
anything else (empty string, a minus sign, spaces, other characters) fails. -/
def parseUsize (s : String) : Option Nat :=
  let cs :=
    match s.data with
    | '+' :: rest => rest
    | cs => cs
  if cs.isEmpty then none
  else if cs.all Char.isDigit then
    let n := cs.foldl (fun acc c => acc * 10 + (c.toNat - 48)) 0
    if n < 2 ^ 64 then some n else none
  else none

/-- `impl FromFormValue for Priority`: parse the raw form value as `usize`;
accept it iff `1 <= data && data <= 5`, otherwise return the raw string as
the error. -/
def Priority.from_form_value (form_value : String) : Except String Priority :=
  match parseUsize form_value with
  | some data =>
      if 1 ≤ data ∧ data ≤ 5 then Except.ok (Priority.mk data)
      else Except.error form_value
  | none => Except.error form_value

/-- `type TodoRepository = Mutex<HashMap<ID, Todo>>;` — the map's contents. -/
abbrev TodoRepository := List (ID × Todo)

/-- `HashMap::get`: the value bound to `k`, if any. -/
def hmGet (m : TodoRepository) (k : ID) : Option Todo :=
  match m with
  | [] => none
  | kv :: rest => if kv.1 = k then some kv.2 else hmGet rest k

/-- `HashMap::contains_key`. -/
def hmContains (m : TodoRepository) (k : ID) : Bool :=
  match m with
  | [] => false
  | kv :: rest => kv.1 = k || hmContains rest k

/-- `HashMap::insert`: bind `k` to `v`, replacing an existing binding of `k`
or adding a new binding when `k` is absent. -/
def hmInsert (m : TodoRepository) (k : ID) (v : Todo) : TodoRepository :=
  match m with
  | [] => [(k, v)]
  | kv :: rest => if kv.1 = k then (k, v) :: rest else kv :: hmInsert rest k v

/-- `HashMap::remove`: drop the binding of `k`, if any. -/
def hmRemove (m : TodoRepository) (k : ID) : TodoRepository :=
  match m with
  | [] => []
  | kv :: rest => if kv.1 = k then hmRemove rest k else kv :: hmRemove rest k

/-- The `json!({ "status": "ok" })` acknowledgment body. -/
inductive ApiStatus where
  | ok
deriving DecidableEq

/-- `index`: GET `/` — collect every value of the map into a vector and
return it as JSON.  The store is only read. -/
def index (todos : TodoRepository) : List Todo × TodoRepository :=
  (todos.map Prod.snd, todos)

/-- `get_single_todo`: GET `/<id>` — look `id` up and return a copy of the
stored record (`None` becomes the 404 response).  The store is only read. -/
def get_single_todo (id : ID) (todos : TodoRepository) :
    Option Todo × TodoRepository :=
  ((hmGet todos id).map fun content =>
    { id := content.id, title := content.title, priority := content.priority },
   todos)

/-- `add_todo`: POST `/` — unconditionally insert the body under key
`todo.id` and acknowledge with `{"status":"ok"}`. -/
def add_todo (todo : Todo) (todos : TodoRepository) :
    ApiStatus × TodoRepository :=
  (ApiStatus.ok, hmInsert todos todo.id todo)

/-- `delete_todo`: DELETE `/<id>` — remove the binding of `id` (present or
not) and acknowledge with `{"status":"ok"}`. -/
def delete_todo (id : ID) (todos : TodoRepository) :
    ApiStatus × TodoRepository :=
  (ApiStatus.ok, hmRemove todos id)

/-- `update_todo`: PUT `/<id>` — if `id` is a key, replace its record with
the body and acknowledge; otherwise `None` (the 404 response) and leave the
map alone. -/
def update_todo (id : ID) (todo : Todo) (todos : TodoRepository) :
    Option ApiStatus × TodoRepository :=
  if hmContains todos id then (some ApiStatus.ok, hmInsert todos id todo)
  else (none, todos)

/-- The resulting store after POSTing each todo of `todos` in order. -/
def applyInserts (todos : List Todo) (s : TodoRepository) : TodoRepository :=
  todos.foldl (fun st t => (add_todo t st).2) s

/-- The [1,5] priority range invariant over a whole store. -/
def storeInv (s : TodoRepository) : Prop :=
  ∀ kv ∈ s, 1 ≤ kv.2.priority.val ∧ kv.2.priority.val ≤ 5

instance (s : TodoRepository) : Decidable (storeInv s) :=
  List.decidableBAll _ s

/-! ### Helper lemmas about the map operations -/

@[simp] theorem hmGet_nil (k : ID) : hmGet [] k = none := rfl

@[simp] theorem hmGet_cons (kv : ID × Todo) (rest : TodoRepository) (k : ID) :
    hmGet (kv :: rest) k = if kv.1 = k then some kv.2 else hmGet rest k := rfl

@[simp] theorem hmContains_nil (k : ID) : hmContains [] k = false := rfl

@[simp] theorem hmContains_cons (kv : ID × Todo) (rest : TodoRepository) (k : ID) :
    hmContains (kv :: rest) k = (decide (kv.1 = k) || hmContains rest k) := rfl

@[simp] theorem hmInsert_nil (k : ID) (v : Todo) : hmInsert [] k v = [(k, v)] := rfl

@[simp] theorem hmInsert_cons (kv : ID × Todo) (rest : TodoRepository) (k : ID) (v : Todo) :
    hmInsert (kv :: rest) k v =
      if kv.1 = k then (k, v) :: rest else kv :: hmInsert rest k v := rfl

@[simp] theorem hmRemove_nil (k : ID) : hmRemove [] k = [] := rfl

@[simp] theorem hmRemove_cons (kv : ID × Todo) (rest : TodoRepository) (k : ID) :
    hmRemove (kv :: rest) k =
      if kv.1 = k then hmRemove rest k else kv :: hmRemove rest k := rfl

theorem hmGet_insert (m : TodoRepository) (k k' : ID) (v : Todo) :
    hmGet (hmInsert m k v) k' = if k' = k then some v else hmGet m k' := by
  induction m with
  | nil =>
      by_cases h : k' = k
      · simp [h]
      · have h2 : ¬k = k' := fun he => h he.symm
        simp [h, h2]
  | cons kv rest ih =>
      by_cases hk : kv.1 = k
      · by_cases h : k' = k
        · simp [hk, h]
        · have h2 : ¬k = k' := fun he => h he.symm
          simp [hk, h, h2]
      · by_cases h' : kv.1 = k'
        · have hne : ¬k' = k := fun he => hk (h'.trans he)
          simp [hk, h', hne]
        · simp [hk, h', ih]

theorem hmContains_iff (m : TodoRepository) (k : ID) :
    hmContains m k = true ↔ ∃ v, (k, v) ∈ m := by
  induction m with
  | nil => simp
  | cons kv rest ih =>
      simp only [hmContains_cons, Bool.or_eq_true, decide_eq_true_eq, ih,
        List.mem_cons]
      constructor
      · rintro (h | ⟨v, hv⟩)
        · exact ⟨kv.2, Or.inl (by rw [← h])⟩
        · exact ⟨v, Or.inr hv⟩
      · rintro ⟨v, hv | hv⟩
        · exact Or.inl (by rw [← hv])
        · exact Or.inr ⟨v, hv⟩

theorem hmGet_eq_none_iff (m : TodoRepository) (k : ID) :
    hmGet m k = none ↔ hmContains m k = false := by
  induction m with
  | nil => simp
  | cons kv rest ih =>
      by_cases h : kv.1 = k <;> simp [h, ih]

theorem hmGet_mem (m : TodoRepository) (k : ID) (v : Todo)
    (h : hmGet m k = some v) : (k, v) ∈ m := by
  induction m with
  | nil => simp at h
  | cons kv rest ih =>
      by_cases hk : kv.1 = k
      · rw [hmGet_cons, if_pos hk, Option.some.injEq] at h
        subst h
        exact List.mem_cons.mpr (Or.inl (by rw [← hk]))
      · rw [hmGet_cons, if_neg hk] at h
        exact List.mem_cons_of_mem _ (ih h)

theorem mem_hmInsert_self (m : TodoRepository) (k : ID) (v : Todo) :
    (k, v) ∈ hmInsert m k v := by
  induction m with
  | nil => simp
  | cons kv rest ih =>
      by_cases h : kv.1 = k
      · simp [h]
      · rw [hmInsert_cons, if_neg h]
        exact List.mem_cons_of_mem _ ih

theorem mem_hmInsert_ne (m : TodoRepository) (k k' : ID) (v v' : Todo)
    (hne : k' ≠ k) : (k', v') ∈ hmInsert m k v ↔ (k', v') ∈ m := by
  induction m with
  | nil =>
      rw [hmInsert_nil]
      constructor
      · intro hm
        exact absurd (congrArg Prod.fst (List.mem_singleton.mp hm)) hne
      · intro hm
        exact absurd hm (List.not_mem_nil _)
  | cons kv rest ih =>
      by_cases h : kv.1 = k
      · rw [hmInsert_cons, if_pos h]
        constructor
        · intro hm
          rcases List.mem_cons.mp hm with he | hm
          · exact absurd (congrArg Prod.fst he) hne
          · exact List.mem_cons_of_mem _ hm
        · intro hm
          rcases List.mem_cons.mp hm with he | hm
          · exact absurd ((congrArg Prod.fst he).trans h) hne
          · exact List.mem_cons_of_mem _ hm
      · rw [hmInsert_cons, if_neg h]
        simp only [List.mem_cons, ih]

theorem hmContains_insert (m : TodoRepository) (k k' : ID) (v : Todo) :
    hmContains (hmInsert m k v) k' = (decide (k' = k) || hmContains m k') := by
  induction m with
  | nil =>
      by_cases h : k' = k
      · simp [h]
      · have h2 : ¬k = k' := fun he => h he.symm
        simp [h, h2]
  | cons kv rest ih =>
      by_cases hk : kv.1 = k
      · by_cases h : k' = k
        · simp [hk, h]
        · have h2 : ¬k = k' := fun he => h he.symm
          simp [hk, h, h2]
      · rw [hmInsert_cons, if_neg hk, hmContains_cons, hmContains_cons, ih]
        cases decide (kv.1 = k') <;> cases decide (k' = k) <;> simp

theorem hmInsert_of_not_contains (m : TodoRepository) (k : ID) (v : Todo)
    (h : hmContains m k = false) : hmInsert m k v = m ++ [(k, v)] := by
  induction m with
  | nil => simp
  | cons kv rest ih =>
      rw [hmContains_cons, Bool.or_eq_false_iff, decide_eq_false_iff_not] at h
      rw [hmInsert_cons, if_neg h.1, ih h.2, List.cons_append]

theorem mem_hmRemove_ne (m : TodoRepository) (k k' : ID) (v' : Todo)
    (hne : k' ≠ k) : (k', v') ∈ hmRemove m k ↔ (k', v') ∈ m := by
  induction m with
  | nil => simp
  | cons kv rest ih =>
      by_cases h : kv.1 = k
      · rw [hmRemove_cons, if_pos h, ih]
        constructor
        · exact fun hm => List.mem_cons_of_mem _ hm
        · intro hm
          rcases List.mem_cons.mp hm with he | hm
          · exact absurd ((congrArg Prod.fst he).trans h) hne
          · exact hm
      · rw [hmRemove_cons, if_neg h]
        simp only [List.mem_cons, ih]

theorem hmContains_remove (m : TodoRepository) (k k' : ID) :
    hmContains (hmRemove m k) k' = (decide (k' ≠ k) && hmContains m k') := by
  induction m with
  | nil => simp
  | cons kv rest ih =>
      by_cases h : kv.1 = k
      · rw [hmRemove_cons, if_pos h, ih, hmContains_cons]
        by_cases h' : k' = k
        · simp [h']
        · have : ¬kv.1 = k' := fun he => h' ((he.symm.trans h))
          simp [this]
      · rw [hmRemove_cons, if_neg h, hmContains_cons, hmContains_cons, ih]
        by_cases h' : kv.1 = k'
        · have : k' ≠ k := fun he => h (h'.trans he)
          simp [h', this]
        · simp [h']

theorem hmRemove_idem (m : TodoRepository) (k : ID) :
    hmRemove (hmRemove m k) k = hmRemove m k := by
  induction m with
  | nil => simp
  | cons kv rest ih =>
      by_cases h : kv.1 = k
      · rw [hmRemove_cons, if_pos h, ih]
      · rw [hmRemove_cons, if_neg h, hmRemove_cons, if_neg h, ih]

theorem hmRemove_of_not_contains (m : TodoRepository) (k : ID)
    (h : hmContains m k = false) : hmRemove m k = m := by
  induction m with
  | nil => simp
  | cons kv rest ih =>
      rw [hmContains_cons, Bool.or_eq_false_iff, decide_eq_false_iff_not] at h
      rw [hmRemove_cons, if_neg h.1, ih h.2]

theorem get_single_todo_fst (id : ID) (s : TodoRepository) :
    (get_single_todo id s).1 = hmGet s id := by
  cases h : hmGet s id <;> simp [get_single_todo, h]

@[simp] theorem applyInserts_nil (s : TodoRepository) : applyInserts [] s = s := rfl

@[simp] theorem applyInserts_cons (t : Todo) (ts : List Todo) (s : TodoRepository) :
    applyInserts (t :: ts) s = applyInserts ts (hmInsert s t.id t) := rfl

theorem hmContains_append (a b : TodoRepository) (k : ID) :
    hmContains (a ++ b) k = (hmContains a k || hmContains b k) := by
  induction a with
  | nil => simp
  | cons kv rest ih => simp [ih, Bool.or_assoc]

theorem mem_applyInserts_of_mem (ts : List Todo) (s : TodoRepository)
    (k : ID) (v : Todo) (hk : ∀ t ∈ ts, t.id ≠ k) (hm : (k, v) ∈ s) :
    (k, v) ∈ applyInserts ts s := by
  induction ts generalizing s with
  | nil => simpa using hm
  | cons t0 ts ih =>
      rw [applyInserts_cons]
      apply ih _ fun t' ht' => hk t' (List.mem_cons_of_mem _ ht')
      exact (mem_hmInsert_ne s t0.id k t0 v
        (Ne.symm (hk t0 (List.mem_cons_self _ _)))).mpr hm

theorem mem_applyInserts (ts : List Todo) (s : TodoRepository)
    (hnd : (ts.map Todo.id).Nodup) (t : Todo) (ht : t ∈ ts) :
    (t.id, t) ∈ applyInserts ts s := by
  induction ts generalizing s with
  | nil => cases ht
  | cons t0 ts ih =>
      rw [List.map_cons, List.nodup_cons] at hnd
      rcases List.mem_cons.mp ht with he | hmem
      · subst he
        rw [applyInserts_cons]
        apply mem_applyInserts_of_mem
        · intro t' ht' he
          exact hnd.1 (he ▸ List.mem_map_of_mem Todo.id ht')
        · exact mem_hmInsert_self s t.id t
      · rw [applyInserts_cons]
        exact ih _ hnd.2 hmem

theorem length_applyInserts (ts : List Todo) (s : TodoRepository)
    (hnd : (ts.map Todo.id).Nodup)
    (hfresh : ∀ t ∈ ts, hmContains s t.id = false) :
    (applyInserts ts s).length = s.length + ts.length := by
  induction ts generalizing s with
  | nil => simp
  | cons t0 ts ih =>
      rw [List.map_cons, List.nodup_cons] at hnd
      have hfr : ∀ t ∈ ts, hmContains (s ++ [(t0.id, t0)]) t.id = false := by
        intro t ht
        rw [hmContains_append, hfresh t (List.mem_cons_of_mem _ ht)]
        simp only [hmContains_cons, hmContains_nil, Bool.or_false,
          Bool.false_or, decide_eq_false_iff_not]
        intro he
        exact hnd.1 (he ▸ List.mem_map_of_mem Todo.id ht)
      rw [applyInserts_cons,
        hmInsert_of_not_contains _ _ _ (hfresh t0 (List.mem_cons_self _ _)),
        ih _ hnd.2 hfr]
      simp only [List.length_append, List.length_cons, List.length_nil]
      omega

/-! ### Claim theorems -/

/-- C1: for every store state and every todo, performing `add_todo todo` and
then `get_single_todo todo.id` returns a record equal to `todo` (same id,
title and priority): `add_todo` stores the body under key `todo.id` and
`get_single_todo` returns a copy of the stored entry. -/
theorem insert_get_roundtrip (s : TodoRepository) (todo : Todo) :
    (get_single_todo todo.id ((add_todo todo s).2)).1 = some todo := by
  rw [get_single_todo_fst]
  show hmGet (hmInsert s todo.id todo) todo.id = some todo
  rw [hmGet_insert]
  simp

/-- C2: `Priority.from_form_value` succeeds with `Priority n` iff the input
string parses as a non-negative integer `n` with `1 ≤ n ≤ 5`; on every other
string (where the parse fails, or the parsed value is outside `[1,5]`) it
returns the raw string as an error. -/
theorem from_form_value_spec (s : String) (n : Nat) :
    (Priority.from_form_value s = Except.ok (Priority.mk n) ↔
      parseUsize s = some n ∧ 1 ≤ n ∧ n ≤ 5) ∧
    (parseUsize s = none → Priority.from_form_value s = Except.error s) ∧
    (parseUsize s = some n → ¬(1 ≤ n ∧ n ≤ 5) →
      Priority.from_form_value s = Except.error s) := by
  refine ⟨?_, ?_, ?_⟩
  · cases hp : parseUsize s with
    | none => simp [Priority.from_form_value, hp]
    | some m =>
        by_cases hr : 1 ≤ m ∧ m ≤ 5
        · simp only [Priority.from_form_value, hp, if_pos hr,
            Except.ok.injEq, Priority.mk.injEq, Option.some.injEq]
          omega
        · simp only [Priority.from_form_value, hp, if_neg hr,
            Option.some.injEq]
          constructor
          · intro he
            cases he
          · intro ⟨he, hn⟩
            exact absurd (he ▸ hn) hr
  · intro hp
    simp [Priority.from_form_value, hp]
  · intro hp hr
    simp [Priority.from_form_value, hp, hr]

/-- C2 witness: `"3"` yields `Priority 3`; `"abc"` (no parse) and `"6"`
(out of range) yield the error carrying the raw string. -/
theorem from_form_value_spec_witness :
    Priority.from_form_value "3" = Except.ok (Priority.mk 3) ∧
    Priority.from_form_value "abc" = Except.error "abc" ∧
    Priority.from_form_value "6" = Except.error "6" := by
  refine ⟨?_, ?_, ?_⟩
  · exact (from_form_value_spec "3" 3).1.mpr ⟨by decide, by decide⟩
  · exact (from_form_value_spec "abc" 0).2.1 (by decide)
  · exact (from_form_value_spec "6" 6).2.2 (by decide) (by decide)

/-- C3: `update_todo` on an id that is not a key of the store returns `none`
(the 404 path) and leaves the store completely unchanged. -/
theorem update_absent_not_found (s : TodoRepository) (id : ID) (todo : Todo)
    (h : hmContains s id = false) :
    update_todo id todo s = (none, s) := by
  simp [update_todo, h]

/-- C3 witness: PUT on id 99 against the empty store is a 404 no-op. -/
theorem update_absent_not_found_witness :
    update_todo 99 (Todo.mk 99 (Priority.mk 4) "todo-1") [] = (none, []) :=
  update_absent_not_found [] 99 (Todo.mk 99 (Priority.mk 4) "todo-1") rfl

/-- C4 counterexample: the claim that every `Priority` in the system lies in
`[1,5]` fails: `add_todo` accepts a todo whose deserialized priority is `7`
(the JSON path performs no validation) and stores it, so the store holds a
priority outside `[1,5]`. -/
theorem priority_invariant_counterexample :
    ¬ storeInv ((add_todo (Todo.mk 1 (Priority.mk 7) "via JSON body") []).2) := by
  decide

/-- C4 (amended): every `Priority` constructed through the validating form
parser `Priority.from_form_value` lies in `[1,5]`; the JSON deserialization
path does not validate, so priorities entering through POST/PUT bodies are
not constrained. -/
theorem from_form_value_priority_in_range (s : String) (p : Priority)
    (h : Priority.from_form_value s = Except.ok p) :
    1 ≤ p.val ∧ p.val ≤ 5 := by
  cases hp : parseUsize s with
  | none => simp [Priority.from_form_value, hp] at h
  | some m =>
      by_cases hr : 1 ≤ m ∧ m ≤ 5
      · simp only [Priority.from_form_value, hp, if_pos hr,
          Except.ok.injEq] at h
        rw [← h]
        exact hr
      · simp [Priority.from_form_value, hp, hr] at h

/-- C4 witness: the priority parsed from `"3"` is in range. -/
theorem from_form_value_priority_in_range_witness :
    1 ≤ (Priority.mk 3).val ∧ (Priority.mk 3).val ≤ 5 :=
  from_form_value_priority_in_range "3" (Priority.mk 3) rfl

/-- C5: `update_todo` on an id that is a key of the store succeeds with the
`{"status":"ok"}` acknowledgment and fully replaces the record stored under
that key with the request body; a subsequent get of the path id returns the
body exactly, its own `id` field accepted as given (never cross-checked
against the path id). -/
theorem update_present_replaces (s : TodoRepository) (id : ID) (todo : Todo)
    (h : hmContains s id = true) :
    update_todo id todo s = (some ApiStatus.ok, hmInsert s id todo) ∧
    (get_single_todo id (update_todo id todo s).2).1 = some todo := by
  have h1 : update_todo id todo s = (some ApiStatus.ok, hmInsert s id todo) := by
    simp [update_todo, h]
  refine ⟨h1, ?_⟩
  rw [h1, get_single_todo_fst]
  show hmGet (hmInsert s id todo) id = some todo
  rw [hmGet_insert]
  simp

/-- C5 witness: updating id 1 with a body whose own id is 2 replaces the
stored record wholesale, body id included. -/
theorem update_present_replaces_witness :
    update_todo 1 (Todo.mk 2 (Priority.mk 3) "updated")
        [(1, Todo.mk 1 (Priority.mk 4) "orig")] =
      (some ApiStatus.ok,
        hmInsert [(1, Todo.mk 1 (Priority.mk 4) "orig")] 1
          (Todo.mk 2 (Priority.mk 3) "updated")) ∧
    (get_single_todo 1
        (update_todo 1 (Todo.mk 2 (Priority.mk 3) "updated")
          [(1, Todo.mk 1 (Priority.mk 4) "orig")]).2).1 =
      some (Todo.mk 2 (Priority.mk 3) "updated") :=
  update_present_replaces [(1, Todo.mk 1 (Priority.mk 4) "orig")] 1
    (Todo.mk 2 (Priority.mk 3) "updated") rfl

/-- C6: `add_todo` never fails: it always acknowledges with
`{"status":"ok"}`, stores the body under key `todo.id` (readable back),
touches no other key, and when `todo.id` was absent it extends the store by
exactly the new binding — a duplicate id is overwritten, never rejected. -/
theorem add_todo_total (s : TodoRepository) (todo : Todo) :
    (add_todo todo s).1 = ApiStatus.ok ∧
    hmGet (add_todo todo s).2 todo.id = some todo ∧
    (∀ k, k ≠ todo.id → hmGet (add_todo todo s).2 k = hmGet s k) ∧
    (hmContains s todo.id = false →
      (add_todo todo s).2 = s ++ [(todo.id, todo)]) := by
  refine ⟨rfl, ?_, ?_, ?_⟩
  · show hmGet (hmInsert s todo.id todo) todo.id = some todo
    rw [hmGet_insert]
    simp
  · intro k hk
    show hmGet (hmInsert s todo.id todo) k = hmGet s k
    rw [hmGet_insert, if_neg hk]
  · intro h
    exact hmInsert_of_not_contains s todo.id todo h

/-- C6 witness: POSTing a fresh todo to the empty store. -/
theorem add_todo_total_witness :
    (add_todo (Todo.mk 1 (Priority.mk 4) "write tests") []).1 = ApiStatus.ok ∧
    hmGet (add_todo (Todo.mk 1 (Priority.mk 4) "write tests") []).2 1 =
      some (Todo.mk 1 (Priority.mk 4) "write tests") ∧
    hmGet (add_todo (Todo.mk 1 (Priority.mk 4) "write tests") []).2 2 =
      hmGet [] 2 ∧
    (add_todo (Todo.mk 1 (Priority.mk 4) "write tests") []).2 =
      [] ++ [(1, Todo.mk 1 (Priority.mk 4) "write tests")] := by
  have h := add_todo_total [] (Todo.mk 1 (Priority.mk 4) "write tests")
  exact ⟨h.1, h.2.1, h.2.2.1 2 (by decide), h.2.2.2 rfl⟩

/-- C7: `index` on the empty store returns the empty sequence, and after
inserting N todos with pairwise-distinct ids into the empty store it returns
exactly N entries, among them every inserted todo (order unspecified). -/
theorem index_spec :
    (index ([] : TodoRepository)).1 = [] ∧
    ∀ todos : List Todo, (todos.map Todo.id).Nodup →
      (index (applyInserts todos [])).1.length = todos.length ∧
      ∀ t ∈ todos, t ∈ (index (applyInserts todos [])).1 := by
  refine ⟨rfl, ?_⟩
  intro todos hnd
  constructor
  · show ((applyInserts todos []).map Prod.snd).length = todos.length
    rw [List.length_map, length_applyInserts todos [] hnd fun _ _ => rfl]
    simp
  · intro t ht
    show t ∈ (applyInserts todos []).map Prod.snd
    exact List.mem_map.mpr ⟨(t.id, t), mem_applyInserts todos [] hnd t ht, rfl⟩

/-- C7 witness: after two distinct inserts, `index` lists two entries and
contains the first inserted todo. -/
theorem index_spec_witness :
    (index (applyInserts
      [Todo.mk 1 (Priority.mk 2) "a", Todo.mk 2 (Priority.mk 3) "b"]
      [])).1.length = 2 ∧
    Todo.mk 1 (Priority.mk 2) "a" ∈ (index (applyInserts
      [Todo.mk 1 (Priority.mk 2) "a", Todo.mk 2 (Priority.mk 3) "b"]
      [])).1 := by
  have h := index_spec.2
    [Todo.mk 1 (Priority.mk 2) "a", Todo.mk 2 (Priority.mk 3) "b"]
    (by decide)
  exact ⟨h.1, h.2 _ (List.mem_cons_self _ _)⟩

/-- C8: `get_single_todo` returns `none` (the 404 path) iff the id is absent
from the store; when the id is a key it returns some record, and any record
it returns is stored in the store under that id. -/
theorem get_single_todo_spec (s : TodoRepository) (id : ID) :
    ((get_single_todo id s).1 = none ↔ hmContains s id = false) ∧
    (hmContains s id = true → ∃ t, (get_single_todo id s).1 = some t) ∧
    (∀ t, (get_single_todo id s).1 = some t → (id, t) ∈ s) := by
  simp only [get_single_todo_fst]
  refine ⟨hmGet_eq_none_iff s id, ?_, ?_⟩
  · intro h
    cases hg : hmGet s id with
    | none =>
        have hc : hmContains s id = false := (hmGet_eq_none_iff s id).mp hg
        rw [h] at hc
        cases hc
    | some t => exact ⟨t, rfl⟩
  · intro t ht
    exact hmGet_mem s id t ht

/-- C8 witness: on a one-entry store, getting the present id returns a
value, and the returned value is the stored entry. -/
theorem get_single_todo_spec_witness :
    (∃ t, (get_single_todo 1 [(1, Todo.mk 1 (Priority.mk 2) "a")]).1 = some t) ∧
    (1, Todo.mk 1 (Priority.mk 2) "a") ∈
      [(1, Todo.mk 1 (Priority.mk 2) "a")] := by
  have h := get_single_todo_spec [(1, Todo.mk 1 (Priority.mk 2) "a")] 1
  exact ⟨h.2.1 rfl, h.2.2 (Todo.mk 1 (Priority.mk 2) "a") rfl⟩

/-- C9: `delete_todo` never fails and is idempotent: it always acknowledges
with `{"status":"ok"}`, deleting the same id twice yields the same final
store as deleting it once (and the same success outcome both times), and
deleting an absent id leaves the store unchanged. -/
theorem delete_todo_idempotent (s : TodoRepository) (id : ID) :
    (delete_todo id s).1 = ApiStatus.ok ∧
    delete_todo id (delete_todo id s).2 = delete_todo id s ∧
    (hmContains s id = false → (delete_todo id s).2 = s) := by
  refine ⟨rfl, ?_, ?_⟩
  · show (ApiStatus.ok, hmRemove (hmRemove s id) id) = (ApiStatus.ok, hmRemove s id)
    rw [hmRemove_idem]
  · intro h
    exact hmRemove_of_not_contains s id h

/-- C9 witness: deleting absent id 2 from a one-entry store acknowledges,
is idempotent, and is a no-op. -/
theorem delete_todo_idempotent_witness :
    (delete_todo 2 [(1, Todo.mk 1 (Priority.mk 3) "keep")]).1 = ApiStatus.ok ∧
    delete_todo 2 (delete_todo 2 [(1, Todo.mk 1 (Priority.mk 3) "keep")]).2 =
      delete_todo 2 [(1, Todo.mk 1 (Priority.mk 3) "keep")] ∧
    (delete_todo 2 [(1, Todo.mk 1 (Priority.mk 3) "keep")]).2 =
      [(1, Todo.mk 1 (Priority.mk 3) "keep")] := by
  have h := delete_todo_idempotent [(1, Todo.mk 1 (Priority.mk 3) "keep")] 2
  exact ⟨h.1, h.2.1, h.2.2 rfl⟩

/-- C10: every operation touches at most the entry at its given key:
`delete_todo id` and a successful `update_todo id` preserve every binding
whose key differs from `id`, while `get_single_todo` and `index` return the
store exactly as they received it. -/
theorem handlers_frame (s : TodoRepository) (id : ID) (todo : Todo)
    (k : ID) (v : Todo) (hk : k ≠ id) :
    ((k, v) ∈ (delete_todo id s).2 ↔ (k, v) ∈ s) ∧
    (hmContains s id = true →
      ((k, v) ∈ (update_todo id todo s).2 ↔ (k, v) ∈ s)) ∧
    (get_single_todo id s).2 = s ∧
    (index s).2 = s := by
  refine ⟨mem_hmRemove_ne s id k v hk, ?_, rfl, rfl⟩
  intro h
  have h2 : (update_todo id todo s).2 = hmInsert s id todo := by
    simp [update_todo, h]
  rw [h2]
  exact mem_hmInsert_ne s id k todo v hk

/-- C10 witness: deleting or updating id 1 leaves the binding of id 2 in
place on a two-entry store. -/
theorem handlers_frame_witness :
    ((2, Todo.mk 2 (Priority.mk 2) "b") ∈
        (delete_todo 1 [(1, Todo.mk 1 (Priority.mk 1) "a"),
          (2, Todo.mk 2 (Priority.mk 2) "b")]).2 ↔
      (2, Todo.mk 2 (Priority.mk 2) "b") ∈
        [(1, Todo.mk 1 (Priority.mk 1) "a"),
          (2, Todo.mk 2 (Priority.mk 2) "b")]) ∧
    ((2, Todo.mk 2 (Priority.mk 2) "b") ∈
        (update_todo 1 (Todo.mk 1 (Priority.mk 5) "c")
          [(1, Todo.mk 1 (Priority.mk 1) "a"),
            (2, Todo.mk 2 (Priority.mk 2) "b")]).2 ↔
      (2, Todo.mk 2 (Priority.mk 2) "b") ∈
        [(1, Todo.mk 1 (Priority.mk 1) "a"),
          (2, Todo.mk 2 (Priority.mk 2) "b")]) := by
  have h := handlers_frame
    [(1, Todo.mk 1 (Priority.mk 1) "a"), (2, Todo.mk 2 (Priority.mk 2) "b")]
    1 (Todo.mk 1 (Priority.mk 5) "c") 2 (Todo.mk 2 (Priority.mk 2) "b")
    (by decide)
  exact ⟨h.1, h.2.1 rfl⟩

end TodoApp
